import Mathlib

/-!
Shallow embedding of the Crab8 CHIP-8 execution engine
(`crab8-core/src/state.rs`, `crab8-core/src/interpreter.rs`, and the
framebuffer part of `CrossTermDisplay::draw` in `src/main.rs`).

Machine integers are modelled as `Nat` with explicit `% 2^w` where the
source relies on wrapping arithmetic; array indexing that can panic in
the source is modelled with `Option`; the `panic!` on an unrecognized
instruction is modelled by a dedicated `Outcome.panicked` result that
also records the display effects issued before the abort.
-/

namespace Crab8

/-- The machine-state record, from `crab8-core/src/state.rs`.
Registers and ram bytes are `u8` values, the index register, program
counter and stack slots are `u16` values; all are carried as `Nat`. -/
structure Chip8State where
  data_registers : Fin 16 → Nat
  index_register : Nat
  program_counter : Nat
  stack_pointer : Nat
  ram : Fin 4096 → Nat
  stack : Fin 256 → Nat
  delay_timer : Nat
  sound_timer : Nat

/-- `Chip8State::default()`: everything zeroed, program counter at 0x200. -/
def Chip8State.init : Chip8State :=
  { data_registers := fun _ => 0
    index_register := 0
    program_counter := 0x200
    stack_pointer := 0
    ram := fun _ => 0
    stack := fun _ => 0
    delay_timer := 0
    sound_timer := 0 }

/-- The fixed 80-byte font table `FONT` from `crab8-core/src/state.rs`. -/
def FONT : List Nat :=
  [0xF0, 0x90, 0x90, 0x90, 0xF0,
   0x20, 0x60, 0x20, 0x20, 0x70,
   0xF0, 0x10, 0xF0, 0x80, 0xF0,
   0xF0, 0x10, 0xF0, 0x10, 0xF0,
   0x90, 0x90, 0xF0, 0x10, 0x10,
   0xF0, 0x80, 0xF0, 0x10, 0xF0,
   0xF0, 0x80, 0xF0, 0x90, 0xF0,
   0xF0, 0x10, 0x20, 0x40, 0x40,
   0xF0, 0x90, 0xF0, 0x90, 0xF0,
   0xF0, 0x90, 0xF0, 0x10, 0xF0,
   0xF0, 0x90, 0xF0, 0x90, 0x90,
   0xE0, 0x90, 0xE0, 0x90, 0xE0,
   0xF0, 0x80, 0x80, 0x80, 0xF0,
   0xE0, 0x90, 0x90, 0x90, 0xE0,
   0xF0, 0x80, 0xF0, 0x80, 0xF0,
   0xF0, 0x80, 0xF0, 0x80, 0x80]

/-- Read one ram byte; the source's `state.ram[a]` panics out of bounds,
modelled as `none`. -/
def readRam (s : Chip8State) (a : Nat) : Option Nat :=
  if h : a < 4096 then some (s.ram ⟨a, h⟩) else none

/-- Write one ram byte; out-of-bounds indexing is `none` (a panic in the
source). -/
def writeRam (s : Chip8State) (a : Nat) (v : Nat) : Option Chip8State :=
  if h : a < 4096 then
    some { s with ram := fun j => if j = ⟨a, h⟩ then v else s.ram j }
  else
    none

/-- Write the list `bytes` to consecutive ram addresses starting at `base`
(the enumerate-loops of `load_font_data` / `load_program`). -/
def storeBytesFrom : Chip8State → Nat → List Nat → Option Chip8State
  | s, _, [] => some s
  | s, a, b :: rest =>
    match writeRam s a b with
    | some t => storeBytesFrom t (a + 1) rest
    | none => none

/-- `Chip8State::load_font_data`, from `crab8-core/src/state.rs`. -/
def Chip8State.load_font_data (s : Chip8State) (fonts : List Nat) : Option Chip8State :=
  storeBytesFrom s 0 fonts

/-- `Chip8State::load_program`, from `crab8-core/src/state.rs`: write the
font table at address 0, then the program bytes at 0x200. -/
def Chip8State.load_program (s : Chip8State) (program : List Nat) : Option Chip8State :=
  match s.load_font_data FONT with
  | some t => storeBytesFrom t 0x200 program
  | none => none

/-- `Chip8State::register`: the register selectors reaching this accessor
are 4-bit nibbles, so the `% 16` never truncates at any call site. -/
def Chip8State.register (s : Chip8State) (i : Nat) : Nat :=
  s.data_registers ⟨i % 16, Nat.mod_lt _ (by decide)⟩

/-- Functional counterpart of `Chip8State::register_mut` followed by an
assignment. -/
def Chip8State.write_register (s : Chip8State) (i : Nat) (v : Nat) : Chip8State :=
  { s with
    data_registers := fun j =>
      if j = (⟨i % 16, Nat.mod_lt _ (by decide)⟩ : Fin 16) then v else s.data_registers j }

/-- `Chip8State::set_flag`: write register 15 as 0/1. -/
def Chip8State.set_flag (s : Chip8State) (flag : Bool) : Chip8State :=
  s.write_register 0xF (if flag then 1 else 0)

/-- `u8::wrapping_add`. -/
def wrappingAdd8 (a b : Nat) : Nat := (a + b) % 256

/-- `u8::overflowing_add`: the wrapped sum and whether the true sum
exceeded 255. -/
def overflowingAdd8 (a b : Nat) : Nat × Bool :=
  ((a + b) % 256, decide (256 ≤ a + b))

/-- `u8::overflowing_sub`: the wrapped difference and whether a borrow
occurred. -/
def overflowingSub8 (a b : Nat) : Nat × Bool :=
  (((a + 256) - b) % 256, decide (a < b))

/-- `u8::overflowing_shr`: the shift amount is masked by the bit width and
the boolean reports only whether the amount was ≥ 8 — it is NOT the bit
shifted out. -/
def overflowingShr8 (a n : Nat) : Nat × Bool :=
  ((a >>> (n % 8)) % 256, decide (8 ≤ n))

/-- `u8::overflowing_shl`: wrapped left shift; the boolean again reports
only whether the shift amount was ≥ 8. -/
def overflowingShl8 (a n : Nat) : Nat × Bool :=
  ((a <<< (n % 8)) % 256, decide (8 ≤ n))

/-- `u16::overflowing_add`. -/
def overflowingAdd16 (a b : Nat) : Nat × Bool :=
  ((a + b) % 65536, decide (65536 ≤ a + b))

/-- A peripheral call issued by the dispatcher during one cycle, in order. -/
inductive Effect where
  | clearDisplay
  | drawSprite (x y : Nat) (data : List Nat)
  | flushDisplay
  | beeperPlay
  | beeperPause
deriving DecidableEq, Repr

/-- The externally supplied answers a single cycle can consume: the
keyboard's `last_key_pressed` and `is_key_down` views, the random byte
drawn by `Cxnn`, and the collision flag returned by `Display::draw`. -/
structure CycleInputs where
  last_key_pressed : Option Nat
  is_key_down : Nat → Bool
  random_byte : Nat
  draw_collision : Bool

/-- Result of one dispatched cycle: the successor state together with the
peripheral calls made, or a process abort (a `panic!` or an out-of-bounds
array index in the source) with the peripheral calls made before it. -/
inductive Outcome where
  | next (s : Chip8State) (effects : List Effect)
  | panicked (effects : List Effect)

/-- Read `len` ram bytes starting at `base` — the slice
`&ram[I .. I + n]` of the draw instruction, which panics when the range
leaves the 4096-byte array. -/
def readRamRange (s : Chip8State) (base len : Nat) : Option (List Nat) :=
  if h : base + len ≤ 4096 then
    some ((List.range len).attach.map fun i =>
      s.ram ⟨base + i.1, by have := i.2; simp [List.mem_range] at this; omega⟩)
  else
    none

/-- The `Fx55` loop: `for i in 0..=x { ram[(I + i) as u16 as usize] = register(i) }`.
`base` is the index register, which the loop never modifies. -/
def storeRegsFrom (base : Nat) : Chip8State → Nat → Nat → Option Chip8State
  | s, _, 0 => some s
  | s, i, k + 1 =>
    match writeRam s ((base + i) % 65536) (s.register i) with
    | some t => storeRegsFrom base t (i + 1) k
    | none => none

/-- The `Fx65` loop: `for i in 0..=x { *register_mut(i) = ram[(I + i) as u16 as usize] }`. -/
def loadRegsFrom (base : Nat) : Chip8State → Nat → Nat → Option Chip8State
  | s, _, 0 => some s
  | s, i, k + 1 =>
    match readRam s ((base + i) % 65536) with
    | some v => loadRegsFrom base (s.write_register i v) (i + 1) k
    | none => none

/-- The operations of the instruction set, one constructor per
non-catch-all arm of the dispatcher's `match`, with the decoded fields
the arm uses.  The shift arms (`8xy6`, `8xyE`) bind `vy` with a wildcard
in the source, so the constructors carry no `vy`. -/
inductive Instr where
  | cls
  | ret
  | jump (address : Nat)
  | call (address : Nat)
  | skipEqImm (vx nn : Nat)
  | skipNeImm (vx nn : Nat)
  | skipEqReg (vx vy : Nat)
  | setImm (vx nn : Nat)
  | addImm (vx nn : Nat)
  | movReg (vx vy : Nat)
  | orReg (vx vy : Nat)
  | andReg (vx vy : Nat)
  | xorReg (vx vy : Nat)
  | addReg (vx vy : Nat)
  | subReg (vx vy : Nat)
  | shrReg (vx : Nat)
  | subnReg (vx vy : Nat)
  | shlReg (vx : Nat)
  | skipNeReg (vx vy : Nat)
  | setIndex (address : Nat)
  | jumpV0 (address : Nat)
  | rnd (vx nn : Nat)
  | draw (vx vy n : Nat)
  | skipKey (vx : Nat)
  | skipNoKey (vx : Nat)
  | getDelay (vx : Nat)
  | waitKey (vx : Nat)
  | setDelay (vx : Nat)
  | setSound (vx : Nat)
  | addIndex (vx : Nat)
  | fontChar (vx : Nat)
  | bcd (vx : Nat)
  | dumpRegs (vx : Nat)
  | fillRegs (vx : Nat)
deriving DecidableEq, Repr

/-- The decode of one instruction word, the pattern rows of the
dispatcher's `match` in source order.  Nibble extraction
`(b & 0xF0) >> 4` / `b & 0x0F` is written arithmetically as
`b / 16 % 16` / `b % 16`, and the address `(n1 as u16) << 8 | byte_b`
as `n1 * 256 + byte_b` (disjoint bit ranges for u8 bytes).  A pattern
matched by no row — the source's `_` arm, which panics — decodes to
`none`. -/
def decode (byte_a byte_b : Nat) : Option Instr :=
  let address := byte_a % 16 * 256 + byte_b
  let immediate_value := byte_b
  match byte_a / 16 % 16, byte_a % 16, byte_b / 16 % 16, byte_b % 16 with
  | 0x0, 0x0, 0xE, 0x0 => some .cls
  | 0x0, 0x0, 0xE, 0xE => some .ret
  | 0x1, _, _, _ => some (.jump address)
  | 0x2, _, _, _ => some (.call address)
  | 0x3, vx, _, _ => some (.skipEqImm vx immediate_value)
  | 0x4, vx, _, _ => some (.skipNeImm vx immediate_value)
  | 0x5, vx, vy, 0x0 => some (.skipEqReg vx vy)
  | 0x6, vx, _, _ => some (.setImm vx immediate_value)
  | 0x7, vx, _, _ => some (.addImm vx immediate_value)
  | 0x8, vx, vy, 0x0 => some (.movReg vx vy)
  | 0x8, vx, vy, 0x1 => some (.orReg vx vy)
  | 0x8, vx, vy, 0x2 => some (.andReg vx vy)
  | 0x8, vx, vy, 0x3 => some (.xorReg vx vy)
  | 0x8, vx, vy, 0x4 => some (.addReg vx vy)
  | 0x8, vx, vy, 0x5 => some (.subReg vx vy)
  | 0x8, vx, _, 0x6 => some (.shrReg vx)
  | 0x8, vx, vy, 0x7 => some (.subnReg vx vy)
  | 0x8, vx, _, 0xE => some (.shlReg vx)
  | 0x9, vx, vy, 0x0 => some (.skipNeReg vx vy)
  | 0xA, _, _, _ => some (.setIndex address)
  | 0xB, _, _, _ => some (.jumpV0 address)
  | 0xC, vx, _, _ => some (.rnd vx immediate_value)
  | 0xD, vx, vy, n => some (.draw vx vy n)
  | 0xE, vx, 0x9, 0xE => some (.skipKey vx)
  | 0xE, vx, 0xA, 0x1 => some (.skipNoKey vx)
  | 0xF, vx, 0x0, 0x7 => some (.getDelay vx)
  | 0xF, vx, 0x0, 0xA => some (.waitKey vx)
  | 0xF, vx, 0x1, 0x5 => some (.setDelay vx)
  | 0xF, vx, 0x1, 0x8 => some (.setSound vx)
  | 0xF, vx, 0x1, 0xE => some (.addIndex vx)
  | 0xF, vx, 0x2, 0x9 => some (.fontChar vx)
  | 0xF, vx, 0x3, 0x3 => some (.bcd vx)
  | 0xF, vx, 0x5, 0x5 => some (.dumpRegs vx)
  | 0xF, vx, 0x6, 0x5 => some (.fillRegs vx)
  | _, _, _, _ => none

/-- The body of each dispatcher arm, acting on the state whose program
counter has already been advanced past the instruction. -/
def exec (i : Instr) (s : Chip8State) (inp : CycleInputs) : Outcome :=
  match i with
  -- clear display
  | .cls => .next s [.clearDisplay]
  -- return
  | .ret =>
    .next { s with
            program_counter := s.stack ⟨s.stack_pointer % 256, Nat.mod_lt _ (by decide)⟩
            stack_pointer := (s.stack_pointer + 255) % 256 } []
  -- jump to address
  | .jump address => .next { s with program_counter := address } []
  -- call subroutine
  | .call address =>
    let sp := (s.stack_pointer + 1) % 256
    .next { s with
            stack_pointer := sp
            stack := fun j =>
              if j = (⟨sp % 256, Nat.mod_lt _ (by decide)⟩ : Fin 256) then
                s.program_counter
              else s.stack j
            program_counter := address } []
  -- skip if Vx == NN
  | .skipEqImm vx nn =>
    if s.register vx = nn then
      .next { s with program_counter := (s.program_counter + 2) % 65536 } []
    else .next s []
  -- skip if Vx != NN
  | .skipNeImm vx nn =>
    if s.register vx ≠ nn then
      .next { s with program_counter := (s.program_counter + 2) % 65536 } []
    else .next s []
  -- skip if Vx == Vy
  | .skipEqReg vx vy =>
    if s.register vx = s.register vy then
      .next { s with program_counter := (s.program_counter + 2) % 65536 } []
    else .next s []
  -- Vx = value
  | .setImm vx nn => .next (s.write_register vx nn) []
  -- Vx += value
  | .addImm vx nn =>
    .next (s.write_register vx (wrappingAdd8 (s.register vx) nn)) []
  -- Vx = Vy
  | .movReg vx vy => .next (s.write_register vx (s.register vy)) []
  -- Vx |= Vy
  | .orReg vx vy => .next (s.write_register vx ((s.register vx) ||| (s.register vy))) []
  -- Vx &= Vy
  | .andReg vx vy => .next (s.write_register vx ((s.register vx) &&& (s.register vy))) []
  -- Vx ^= Vy
  | .xorReg vx vy => .next (s.write_register vx ((s.register vx) ^^^ (s.register vy))) []
  -- Vx += Vy
  | .addReg vx vy =>
    let r := overflowingAdd8 (s.register vx) (s.register vy)
    .next ((s.write_register vx r.1).set_flag r.2) []
  -- Vx -= Vy
  | .subReg vx vy =>
    let r := overflowingSub8 (s.register vx) (s.register vy)
    .next ((s.write_register vx r.1).set_flag (!r.2)) []
  -- Vx >>= 1
  | .shrReg vx =>
    let r := overflowingShr8 (s.register vx) 1
    .next ((s.write_register vx r.1).set_flag (!r.2)) []
  -- Vx = Vy - Vx
  | .subnReg vx vy =>
    let r := overflowingSub8 (s.register vy) (s.register vx)
    .next ((s.write_register vx r.1).set_flag (!r.2)) []
  -- Vx <<= 1
  | .shlReg vx =>
    let r := overflowingShl8 (s.register vx) 1
    .next ((s.write_register vx r.1).set_flag (!r.2)) []
  -- skip if Vx != Vy
  | .skipNeReg vx vy =>
    if s.register vx ≠ s.register vy then
      .next { s with program_counter := (s.program_counter + 2) % 65536 } []
    else .next s []
  -- I = address
  | .setIndex address => .next { s with index_register := address } []
  -- jump to NNN + V0
  | .jumpV0 address =>
    .next { s with program_counter := (s.register 0x0 + address) % 65536 } []
  -- Vx = rand() & NN
  | .rnd vx nn =>
    .next (s.write_register vx (nn &&& inp.random_byte)) []
  -- display sprite
  | .draw vx vy n =>
    let x := s.register vx
    let y := s.register vy
    match readRamRange s s.index_register n with
    | some data => .next (s.set_flag inp.draw_collision) [.drawSprite x y data]
    | none => .panicked []
  -- skip if key()
  | .skipKey vx =>
    if inp.is_key_down (s.register vx) then
      .next { s with program_counter := (s.program_counter + 2) % 65536 } []
    else .next s []
  -- skip if !key()
  | .skipNoKey vx =>
    if !inp.is_key_down (s.register vx) then
      .next { s with program_counter := (s.program_counter + 2) % 65536 } []
    else .next s []
  -- Vx = delay timer
  | .getDelay vx => .next (s.write_register vx s.delay_timer) []
  -- Vx = get_key()
  | .waitKey vx =>
    match inp.last_key_pressed with
    | some last_key => .next (s.write_register vx last_key) []
    | none =>
      .next { s with program_counter := (s.program_counter + 65536 - 2) % 65536 } []
  -- set delay timer to Vx
  | .setDelay vx => .next { s with delay_timer := s.register vx } []
  -- set sound timer to Vx
  | .setSound vx => .next { s with sound_timer := s.register vx } []
  -- I += Vx
  | .addIndex vx =>
    let r := overflowingAdd16 s.index_register (s.register vx)
    .next (({ s with index_register := r.1 } : Chip8State).set_flag r.2) []
  -- I = Vx'th character index
  | .fontChar vx =>
    .next { s with index_register := s.register vx * 5 % 65536 } []
  -- convert and store Vx to decimal
  | .bcd vx =>
    let value := s.register vx
    match writeRam s s.index_register (value / 100) with
    | none => .panicked []
    | some s1 =>
      match writeRam s1 (s1.index_register + 1) (value / 10 % 10) with
      | none => .panicked []
      | some s2 =>
        match writeRam s2 (s2.index_register + 2) (value % 10) with
        | none => .panicked []
        | some s3 => .next s3 []
  -- store everything up until Vx
  | .dumpRegs vx =>
    match storeRegsFrom s.index_register s 0 (vx + 1) with
    | some t => .next t []
    | none => .panicked []
  -- load everything up until Vx
  | .fillRegs vx =>
    match loadRegsFrom s.index_register s 0 (vx + 1) with
    | some t => .next t []
    | none => .panicked []

/-- One fetch-decode-execute cycle of `run_program`
(`crab8-core/src/interpreter.rs`, the body of the `loop` up to and
excluding the timer block).  The two instruction bytes are read at the
program counter (an out-of-bounds counter panics the process, modelled
as `.panicked []`), the counter is advanced by 2 before execution, and
the nibble pattern is dispatched; a pattern matched by no arm clears and
flushes the display and then panics. -/
def step (s0 : Chip8State) (inp : CycleInputs) : Outcome :=
  match readRam s0 s0.program_counter, readRam s0 (s0.program_counter + 1) with
  | some byte_a, some byte_b =>
    let s : Chip8State := { s0 with program_counter := (s0.program_counter + 2) % 65536 }
    match decode byte_a byte_b with
    | some i => exec i s inp
    | none => .panicked [.clearDisplay, .flushDisplay]
  | _, _ => .panicked []

/-- The timer block of `run_program`, executed when the 60 Hz timer
ticks: decrement the delay timer if positive, decrement the sound timer
if positive calling `beeper.play()`, otherwise `beeper.pause()`, then
flush the display. -/
def timerTick (s : Chip8State) : Chip8State × List Effect :=
  let s1 := if 0 < s.delay_timer then { s with delay_timer := s.delay_timer - 1 } else s
  if 0 < s1.sound_timer then
    ({ s1 with sound_timer := s1.sound_timer - 1 }, [.beeperPlay, .flushDisplay])
  else
    (s1, [.beeperPause, .flushDisplay])

/-- The successor state of a cycle, when it did not abort. -/
def Outcome.stateOf : Outcome → Option Chip8State
  | .next t _ => some t
  | .panicked _ => none

/-- The program counter of the successor state, when the cycle did not abort. -/
def Outcome.pcOf : Outcome → Option Nat
  | .next t _ => some t.program_counter
  | .panicked _ => none

/-- Register `i` of the successor state, when the cycle did not abort. -/
def Outcome.regOf (o : Outcome) (i : Nat) : Option Nat :=
  match o with
  | .next t _ => some (t.register i)
  | .panicked _ => none

/-- The peripheral calls the cycle issued (also on abort). -/
def Outcome.effectsOf : Outcome → List Effect
  | .next _ e => e
  | .panicked e => e

/-- Whether the cycle aborted the process. -/
def Outcome.aborted : Outcome → Bool
  | .next _ _ => false
  | .panicked _ => true

/-- The inner `for j in 0..8` loop of `CrossTermDisplay::draw`
(`src/main.rs`): `col = x + j` (u8 addition), `flip` is bit `7 - j` of
the sprite byte, and the *flattened* index `row * 64 + col` is compared
with the framebuffer length, `break`-ing out of the row when it is past
the end; otherwise the pixel is XOR-ed and a lit-to-unlit transition
records a collision.  `k` is the number of iterations left. -/
def drawRowAux (x row byte : Nat) :
    (Fin 2048 → Bool) → Bool → Nat → Nat → (Fin 2048 → Bool) × Bool
  | disp, col, _, 0 => (disp, col)
  | disp, col, j, k + 1 =>
    let c := (x + j) % 256
    let flip := decide (0 < byte &&& (1 <<< (7 - j)))
    let display_index := row * 64 + c
    if h : display_index < 2048 then
      let idx : Fin 2048 := ⟨display_index, h⟩
      let col' := col || (disp idx && flip)
      let disp' := fun t => if t = idx then xor (disp t) flip else disp t
      drawRowAux x row byte disp' col' (j + 1) k
    else
      (disp, col)

/-- The outer `for (i, to_draw) in data.iter().enumerate()` loop of
`CrossTermDisplay::draw`: `row = y + i`, one byte per row. -/
def drawData (x y : Nat) :
    (Fin 2048 → Bool) → Bool → Nat → List Nat → (Fin 2048 → Bool) × Bool
  | disp, col, _, [] => (disp, col)
  | disp, col, i, byte :: rest =>
    let r := drawRowAux x (y + i) byte disp col 0 8
    drawData x y r.1 r.2 (i + 1) rest

/-- The framebuffer part of `CrossTermDisplay::draw` (`src/main.rs`):
XOR the sprite into the 64×32 bitmap and return the new bitmap together
with the collision flag. -/
def crossTermDraw (disp : Fin 2048 → Bool) (x y : Nat) (data : List Nat) :
    (Fin 2048 → Bool) × Bool :=
  drawData x y disp false 0 data

/-- The instruction at the program counter of `s` is `2nnn` with
`nnn = hi * 256 + lo` (both fetched bytes in range). -/
def decodesCallTo (s : Chip8State) (hi lo : Nat) : Prop :=
  s.program_counter + 1 < 4096 ∧ hi < 16 ∧ lo < 256 ∧
    readRam s s.program_counter = some (0x20 + hi) ∧
    readRam s (s.program_counter + 1) = some lo

/-- The instruction at the program counter of `s` is `00EE`. -/
def decodesRet (s : Chip8State) : Prop :=
  s.program_counter + 1 < 4096 ∧
    readRam s s.program_counter = some 0x00 ∧
    readRam s (s.program_counter + 1) = some 0xEE

/-- `CallRetSeq s ps t`: starting from `s`, the machine performed a
sequence of `2nnn` calls and `00EE` returns (each one a full `step`),
where `ps` lists the program-counter values of the calls not yet
returned from, most recent first.  The `ret` constructor consumes the
head of `ps`, so the list is exactly the last-in-first-out matching of
returns to calls.  Each call requires the stack pointer to be below
capacity. -/
inductive CallRetSeq : Chip8State → List Nat → Chip8State → Prop where
  | nil (s : Chip8State) : CallRetSeq s [] s
  | call (s : Chip8State) (ps : List Nat) (t t' : Chip8State) (inp : CycleInputs)
      (hi lo : Nat)
      (hseq : CallRetSeq s ps t)
      (hcap : t.stack_pointer < 255)
      (hdec : decodesCallTo t hi lo)
      (hstep : step t inp = .next t' []) :
      CallRetSeq s (t.program_counter :: ps) t'
  | ret (s : Chip8State) (p : Nat) (ps : List Nat) (t t' : Chip8State) (inp : CycleInputs)
      (hseq : CallRetSeq s (p :: ps) t)
      (hdec : decodesRet t)
      (hstep : step t inp = .next t' []) :
      CallRetSeq s ps t'

/-- Test fixture: a ram function holding the listed address/byte pairs
and 0 elsewhere. -/
def ramOf (l : List (Nat × Nat)) : Fin 4096 → Nat :=
  fun a => (((l.find? (fun p => p.1 = a.1)).map Prod.snd).getD 0)

/-- Test fixture: the freshly reset state with the listed ram contents. -/
def stateWith (l : List (Nat × Nat)) : Chip8State :=
  { Chip8State.init with ram := ramOf l }

/-- Test fixture: a cycle with no key available, no key held, random
byte 0 and no draw collision. -/
def noInput : CycleInputs :=
  { last_key_pressed := none
    is_key_down := fun _ => false
    random_byte := 0
    draw_collision := false }

/-! ## Theorems -/

/-- A successful fetch followed by a successful decode runs the decoded
arm on the counter-advanced state. -/
theorem step_eq_exec (s : Chip8State) (inp : CycleInputs) (byte_a byte_b : Nat) (i : Instr)
    (ha : readRam s s.program_counter = some byte_a)
    (hb : readRam s (s.program_counter + 1) = some byte_b)
    (hdec : decode byte_a byte_b = some i) :
    step s inp = exec i { s with program_counter := (s.program_counter + 2) % 65536 } inp := by
  simp only [step, ha, hb, hdec]

/-- Writing a byte list succeeds when it fits in ram, writes the bytes at
consecutive addresses and leaves every other address and every non-ram
field untouched. -/
theorem storeBytesFrom_spec (bytes : List Nat) :
    ∀ (s : Chip8State) (base : Nat), base + bytes.length ≤ 4096 →
    ∃ t, storeBytesFrom s base bytes = some t ∧
      (∀ a : Fin 4096, (a.1 < base ∨ base + bytes.length ≤ a.1) → t.ram a = s.ram a) ∧
      (∀ i (_ : i < bytes.length) (h4 : base + i < 4096),
        t.ram ⟨base + i, h4⟩ = bytes.getD i 0) ∧
      t.data_registers = s.data_registers ∧ t.index_register = s.index_register ∧
      t.program_counter = s.program_counter ∧ t.stack_pointer = s.stack_pointer ∧
      t.stack = s.stack ∧ t.delay_timer = s.delay_timer ∧ t.sound_timer = s.sound_timer := by
  induction bytes with
  | nil =>
    intro s base _
    exact ⟨s, rfl, fun _ _ => rfl, fun i hi => absurd hi (by simp), rfl, rfl, rfl, rfl, rfl, rfl, rfl⟩
  | cons b rest ih =>
    intro s base hle
    have hbase : base < 4096 := by simp at hle; omega
    have hw : writeRam s base b =
        some { s with ram := fun j => if j = ⟨base, hbase⟩ then b else s.ram j } := by
      unfold writeRam
      rw [dif_pos hbase]
    set s' : Chip8State := { s with ram := fun j => if j = ⟨base, hbase⟩ then b else s.ram j }
      with hs'
    obtain ⟨t, ht, hframe, hcontent, hregs, hir, hpc, hsp, hstk, hdt, hst⟩ :=
      ih s' (base + 1) (by simp at hle ⊢; omega)
    refine ⟨t, ?_, ?_, ?_, hregs, hir, hpc, hsp, hstk, hdt, hst⟩
    · unfold storeBytesFrom
      rw [hw]
      exact ht
    · intro a hcase
      have h1 : t.ram a = s'.ram a := by
        apply hframe
        simp at hcase ⊢
        omega
      rw [h1, hs']
      simp only
      rw [if_neg]
      intro hcontra
      have : a.1 = base := by rw [hcontra]
      simp at hcase
      omega
    · intro i hi h4
      cases i with
      | zero =>
        have h1 : t.ram ⟨base + 0, h4⟩ = s'.ram ⟨base + 0, h4⟩ := by
          apply hframe
          left
          simp
        rw [h1, hs']
        simp only
        rw [if_pos (by simp)]
        simp
      | succ j =>
        have hj : j < rest.length := by simp at hi; omega
        have h4' : base + 1 + j < 4096 := by omega
        have h1 : t.ram ⟨base + 1 + j, h4'⟩ = rest.getD j 0 := hcontent j hj h4'
        have : (⟨base + (j + 1), h4⟩ : Fin 4096) = ⟨base + 1 + j, h4'⟩ := by
          apply Fin.ext
          simp
          omega
        rw [this, h1]
        simp

/-- C2: after `load_program`, addresses 0x000–0x04F hold the 80-byte
font table (the 5-byte glyph for digit `d` starting at address `5*d` —
the font is written before the program bytes, as `load_program` calls
`load_font_data` first), and the program bytes appear verbatim from
address 0x200 on. -/
theorem c2_load_program_layout (s : Chip8State) (program : List Nat)
    (h : 0x200 + program.length ≤ 4096) :
    ∃ t, s.load_program program = some t ∧
      (∀ i (_ : i < 80), t.ram ⟨i, by omega⟩ = FONT.getD i 0) ∧
      (∀ d k (_ : d < 16) (_ : k < 5), t.ram ⟨5 * d + k, by omega⟩ = FONT.getD (5 * d + k) 0) ∧
      (∀ i (_ : i < program.length), t.ram ⟨0x200 + i, by omega⟩ = program.getD i 0) := by
  have hfl : FONT.length = 80 := by rfl
  obtain ⟨t1, ht1, hfr1, hco1, _, _, _, _, _, _, _⟩ :=
    storeBytesFrom_spec FONT s 0 (by rw [hfl]; omega)
  obtain ⟨t, ht, hfr, hco, _, _, _, _, _, _, _⟩ :=
    storeBytesFrom_spec program t1 0x200 (by omega)
  have hload : s.load_program program = some t := by
    unfold Chip8State.load_program Chip8State.load_font_data
    rw [ht1]
    exact ht
  have hfont : ∀ i (_ : i < 80), t.ram ⟨i, by omega⟩ = FONT.getD i 0 := by
    intro i hi
    have h1 : t.ram ⟨i, by omega⟩ = t1.ram ⟨i, by omega⟩ := by
      apply hfr
      left
      simp
      omega
    rw [h1]
    have h2 := hco1 i (by rw [hfl]; exact hi) (by omega)
    simpa using h2
  refine ⟨t, hload, hfont, ?_, ?_⟩
  · intro d k hd hk
    exact hfont (5 * d + k) (by omega)
  · intro i hi
    have h2 := hco i hi (by omega)
    exact h2

theorem register_write_self (s : Chip8State) (i v : Nat) :
    (s.write_register i v).register i = v := by
  unfold Chip8State.register Chip8State.write_register
  simp

theorem register_write_other (s : Chip8State) (i j v : Nat) (h : j % 16 ≠ i % 16) :
    (s.write_register i v).register j = s.register j := by
  unfold Chip8State.register Chip8State.write_register
  simp only
  rw [if_neg]
  intro hc
  exact h (congrArg Fin.val hc)

theorem register_update_pc (s : Chip8State) (p i : Nat) :
    (({ s with program_counter := p } : Chip8State)).register i = s.register i := rfl

theorem register_set_flag (s : Chip8State) (b : Bool) :
    (s.set_flag b).register 15 = if b then 1 else 0 := by
  unfold Chip8State.set_flag
  exact register_write_self s 0xF _

theorem register_set_flag_other (s : Chip8State) (b : Bool) (j : Nat) (h : j % 16 ≠ 15) :
    (s.set_flag b).register j = s.register j := by
  unfold Chip8State.set_flag
  exact register_write_other s 0xF j _ (by simpa using h)

theorem decode_addReg (x y : Nat) (hx : x < 16) (hy : y < 16) :
    decode (0x80 + x) (16 * y + 0x4) = some (.addReg x y) := by
  unfold decode
  have e0 : (0x80 + x) / 16 % 16 = 8 := by omega
  have e1 : (0x80 + x) % 16 = x := by omega
  have e2 : (16 * y + 0x4) / 16 % 16 = y := by omega
  have e3 : (16 * y + 0x4) % 16 = 4 := by omega
  rw [e0, e1, e2, e3]

theorem decode_subReg (x y : Nat) (hx : x < 16) (hy : y < 16) :
    decode (0x80 + x) (16 * y + 0x5) = some (.subReg x y) := by
  unfold decode
  have e0 : (0x80 + x) / 16 % 16 = 8 := by omega
  have e1 : (0x80 + x) % 16 = x := by omega
  have e2 : (16 * y + 0x5) / 16 % 16 = y := by omega
  have e3 : (16 * y + 0x5) % 16 = 5 := by omega
  rw [e0, e1, e2, e3]

theorem decode_shrReg (x y : Nat) (hx : x < 16) (hy : y < 16) :
    decode (0x80 + x) (16 * y + 0x6) = some (.shrReg x) := by
  unfold decode
  have e0 : (0x80 + x) / 16 % 16 = 8 := by omega
  have e1 : (0x80 + x) % 16 = x := by omega
  have e2 : (16 * y + 0x6) / 16 % 16 = y := by omega
  have e3 : (16 * y + 0x6) % 16 = 6 := by omega
  rw [e0, e1, e2, e3]

theorem decode_subnReg (x y : Nat) (hx : x < 16) (hy : y < 16) :
    decode (0x80 + x) (16 * y + 0x7) = some (.subnReg x y) := by
  unfold decode
  have e0 : (0x80 + x) / 16 % 16 = 8 := by omega
  have e1 : (0x80 + x) % 16 = x := by omega
  have e2 : (16 * y + 0x7) / 16 % 16 = y := by omega
  have e3 : (16 * y + 0x7) % 16 = 7 := by omega
  rw [e0, e1, e2, e3]

theorem decode_shlReg (x y : Nat) (hx : x < 16) (hy : y < 16) :
    decode (0x80 + x) (16 * y + 0xE) = some (.shlReg x) := by
  unfold decode
  have e0 : (0x80 + x) / 16 % 16 = 8 := by omega
  have e1 : (0x80 + x) % 16 = x := by omega
  have e2 : (16 * y + 0xE) / 16 % 16 = y := by omega
  have e3 : (16 * y + 0xE) % 16 = 14 := by omega
  rw [e0, e1, e2, e3]

/-- C1 counterexample: with V0 = 0 (low bit 0), executing `8006` sets
VF to 1, not to the bit shifted out (which is 0) — the source feeds
`overflowing_shr(1)`'s boolean (shift amount ≥ 8, always false) into
`set_flag(!borrow)`, so VF is always 1. -/
theorem c1_shift_flag_counterexample :
    (stateWith [(0x200, 0x80), (0x201, 0x06)]).register 0 % 2 = 0 ∧
    (step (stateWith [(0x200, 0x80), (0x201, 0x06)]) noInput).regOf 15 = some 1 :=
  ⟨by decide, by decide⟩

/-- C1 amended: `8xy6` sets Vx to `Vx >> 1` and `8xyE` sets Vx to
`(Vx << 1) mod 256`; Vy is ignored by both (the result state depends
only on Vx, and every other register, the ram, stack and timers are
unchanged); but VF does NOT receive the bit shifted out — it is set to
1 unconditionally. -/
theorem c1_amended_shifts (s : Chip8State) (inp : CycleInputs) (x y n3 : Nat)
    (hx : x < 16) (hy : y < 16) (hn : n3 = 0x6 ∨ n3 = 0xE)
    (hv8 : s.register x < 256)
    (hA : readRam s s.program_counter = some (0x80 + x))
    (hB : readRam s (s.program_counter + 1) = some (16 * y + n3)) :
    ∃ t, step s inp = .next t [] ∧
      t.register 15 = 1 ∧
      (x ≠ 15 → t.register x =
        (if n3 = 0x6 then s.register x / 2 else s.register x * 2 % 256)) ∧
      (∀ j, j < 16 → j ≠ x → j ≠ 15 → t.register j = s.register j) ∧
      t.program_counter = (s.program_counter + 2) % 65536 ∧
      t.index_register = s.index_register ∧ t.ram = s.ram ∧ t.stack = s.stack ∧
      t.stack_pointer = s.stack_pointer ∧
      t.delay_timer = s.delay_timer ∧ t.sound_timer = s.sound_timer := by
  rcases hn with hn | hn <;> subst hn
  · rw [step_eq_exec s inp _ _ (.shrReg x) hA hB (decode_shrReg x y hx hy)]
    simp only [exec]
    refine ⟨_, rfl, ?_, ?_, ?_, rfl, rfl, rfl, rfl, rfl, rfl, rfl⟩
    · rw [register_set_flag]
      simp [overflowingShr8]
    · intro _
      rw [register_set_flag_other _ _ x (by omega), register_write_self]
      simp only [overflowingShr8, register_update_pc]
      norm_num [Nat.shiftRight_eq_div_pow]
      omega
    · intro j hj hjx hj15
      rw [register_set_flag_other _ _ j (by omega),
        register_write_other _ _ _ _ (by omega), register_update_pc]
  · rw [step_eq_exec s inp _ _ (.shlReg x) hA hB (decode_shlReg x y hx hy)]
    simp only [exec]
    refine ⟨_, rfl, ?_, ?_, ?_, rfl, rfl, rfl, rfl, rfl, rfl, rfl⟩
    · rw [register_set_flag]
      simp [overflowingShl8]
    · intro _
      rw [register_set_flag_other _ _ x (by omega), register_write_self]
      simp only [overflowingShl8, register_update_pc]
      norm_num [Nat.shiftLeft_eq]
    · intro j hj hjx hj15
      rw [register_set_flag_other _ _ j (by omega),
        register_write_other _ _ _ _ (by omega), register_update_pc]

/-- C1 amended at a concrete input: V0 = 5, `8006` gives V0 = 2, VF = 1. -/
theorem c1_amended_shifts_witness :
    ∃ t, step ((stateWith [(0x200, 0x80), (0x201, 0x06)]).write_register 0 5) noInput =
        .next t [] ∧
      t.register 15 = 1 ∧
      (0 ≠ 15 → t.register 0 =
        (if 6 = 0x6 then ((stateWith [(0x200, 0x80), (0x201, 0x06)]).write_register 0 5).register 0 / 2
         else ((stateWith [(0x200, 0x80), (0x201, 0x06)]).write_register 0 5).register 0 * 2 % 256)) ∧
      (∀ j, j < 16 → j ≠ 0 → j ≠ 15 → t.register j =
        ((stateWith [(0x200, 0x80), (0x201, 0x06)]).write_register 0 5).register j) ∧
      t.program_counter = (0x200 + 2) % 65536 ∧
      t.index_register = 0 ∧
      t.ram = ((stateWith [(0x200, 0x80), (0x201, 0x06)]).write_register 0 5).ram ∧
      t.stack = ((stateWith [(0x200, 0x80), (0x201, 0x06)]).write_register 0 5).stack ∧
      t.stack_pointer = 0 ∧ t.delay_timer = 0 ∧ t.sound_timer = 0 :=
  c1_amended_shifts _ noInput 0 0 6 (by decide) (by decide) (Or.inl rfl) (by decide)
    (by decide) (by decide)

/-- C10: for the flag-writing arithmetic/shift instructions (`8xy4`,
`8xy5`, `8xy6`, `8xy7`, `8xyE`) with destination selector x = 15, the
final value of register 15 is the flag (0 or 1), not the arithmetic
result: the arm writes the result to Vx = VF first and `set_flag` runs
after it, overwriting it. -/
theorem c10_flag_overwrites_result (s : Chip8State) (inp : CycleInputs) (y n3 : Nat)
    (hy : y < 16) (hn : n3 = 0x4 ∨ n3 = 0x5 ∨ n3 = 0x6 ∨ n3 = 0x7 ∨ n3 = 0xE)
    (hA : readRam s s.program_counter = some (0x80 + 15))
    (hB : readRam s (s.program_counter + 1) = some (16 * y + n3)) :
    ∃ t, step s inp = .next t [] ∧
      (t.register 15 = 0 ∨ t.register 15 = 1) ∧
      t.register 15 =
        (if n3 = 0x4 then (if 255 < s.register 15 + s.register y then 1 else 0)
         else if n3 = 0x5 then (if s.register y ≤ s.register 15 then 1 else 0)
         else if n3 = 0x7 then (if s.register 15 ≤ s.register y then 1 else 0)
         else 1) := by
  rcases hn with hn | hn | hn | hn | hn <;> subst hn
  · rw [step_eq_exec s inp _ _ (.addReg 15 y) hA hB (decode_addReg 15 y (by omega) hy)]
    simp only [exec]
    refine ⟨_, rfl, ?_, ?_⟩
    · rw [register_set_flag]; split_ifs <;> simp
    · rw [register_set_flag]
      simp only [overflowingAdd8, register_update_pc, decide_eq_true_eq]
      norm_num
      split_ifs <;> omega
  · rw [step_eq_exec s inp _ _ (.subReg 15 y) hA hB (decode_subReg 15 y (by omega) hy)]
    simp only [exec]
    refine ⟨_, rfl, ?_, ?_⟩
    · rw [register_set_flag]; split_ifs <;> simp
    · rw [register_set_flag]
      simp only [overflowingSub8, Bool.not_eq_true', decide_eq_false_iff_not, not_lt,
        register_update_pc]
      norm_num
  · rw [step_eq_exec s inp _ _ (.shrReg 15) hA hB (decode_shrReg 15 y (by omega) hy)]
    simp only [exec]
    refine ⟨_, rfl, ?_, ?_⟩
    · rw [register_set_flag]; split_ifs <;> simp
    · rw [register_set_flag]
      simp [overflowingShr8]
  · rw [step_eq_exec s inp _ _ (.subnReg 15 y) hA hB (decode_subnReg 15 y (by omega) hy)]
    simp only [exec]
    refine ⟨_, rfl, ?_, ?_⟩
    · rw [register_set_flag]; split_ifs <;> simp
    · rw [register_set_flag]
      simp only [overflowingSub8, Bool.not_eq_true', decide_eq_false_iff_not, not_lt,
        register_update_pc]
      norm_num
  · rw [step_eq_exec s inp _ _ (.shlReg 15) hA hB (decode_shlReg 15 y (by omega) hy)]
    simp only [exec]
    refine ⟨_, rfl, ?_, ?_⟩
    · rw [register_set_flag]; split_ifs <;> simp
    · rw [register_set_flag]
      simp [overflowingShl8]

/-- C10 at a concrete input: VF = 200, V1 = 100, `8F14`: the final VF is
the carry flag 1, not the wrapped sum 44. -/
theorem c10_flag_overwrites_result_witness :
    ∃ t, step (((stateWith [(0x200, 0x8F), (0x201, 0x14)]).write_register 15 200).write_register 1 100)
        noInput = .next t [] ∧
      (t.register 15 = 0 ∨ t.register 15 = 1) ∧
      t.register 15 =
        (if 4 = 0x4 then
          (if 255 <
            (((stateWith [(0x200, 0x8F), (0x201, 0x14)]).write_register 15 200).write_register 1 100).register 15 +
            (((stateWith [(0x200, 0x8F), (0x201, 0x14)]).write_register 15 200).write_register 1 100).register 1
           then 1 else 0)
         else if 4 = 0x5 then
          (if (((stateWith [(0x200, 0x8F), (0x201, 0x14)]).write_register 15 200).write_register 1 100).register 1 ≤
            (((stateWith [(0x200, 0x8F), (0x201, 0x14)]).write_register 15 200).write_register 1 100).register 15
           then 1 else 0)
         else if 4 = 0x7 then
          (if (((stateWith [(0x200, 0x8F), (0x201, 0x14)]).write_register 15 200).write_register 1 100).register 15 ≤
            (((stateWith [(0x200, 0x8F), (0x201, 0x14)]).write_register 15 200).write_register 1 100).register 1
           then 1 else 0)
         else 1) :=
  c10_flag_overwrites_result _ noInput 1 4 (by decide) (Or.inl rfl) (by decide) (by decide)

theorem decode_waitKey (x : Nat) (hx : x < 16) :
    decode (0xF0 + x) 0x0A = some (.waitKey x) := by
  unfold decode
  have e0 : (0xF0 + x) / 16 % 16 = 15 := by omega
  have e1 : (0xF0 + x) % 16 = x := by omega
  rw [e0, e1]

/-- The `Fx55` loop writes registers `i0..i0+k` to
`base+i0..base+i0+k`, succeeds within ram bounds, and changes nothing
else. -/
theorem storeRegsFrom_spec (base : Nat) : ∀ (k i0 : Nat) (s : Chip8State),
    base + i0 + k ≤ 4096 →
    ∃ t, storeRegsFrom base s i0 k = some t ∧
      t.data_registers = s.data_registers ∧
      t.index_register = s.index_register ∧
      t.program_counter = s.program_counter ∧
      t.stack_pointer = s.stack_pointer ∧ t.stack = s.stack ∧
      t.delay_timer = s.delay_timer ∧ t.sound_timer = s.sound_timer ∧
      (∀ a : Fin 4096, (a.1 < base + i0 ∨ base + i0 + k ≤ a.1) → t.ram a = s.ram a) ∧
      (∀ i (_ : i0 ≤ i) (_ : i < i0 + k) (h4 : base + i < 4096),
        t.ram ⟨base + i, h4⟩ = s.register i) := by
  intro k
  induction k with
  | zero =>
    intro i0 s _
    exact ⟨s, rfl, rfl, rfl, rfl, rfl, rfl, rfl, rfl, fun _ _ => rfl,
      fun i h1 h2 => absurd h2 (by omega)⟩
  | succ m ih =>
    intro i0 s hle
    have hb : base + i0 < 4096 := by omega
    have hmod : (base + i0) % 65536 = base + i0 := Nat.mod_eq_of_lt (by omega)
    have hw : writeRam s ((base + i0) % 65536) (s.register i0) =
        some { s with ram := fun j => if j = ⟨base + i0, hb⟩ then s.register i0 else s.ram j } := by
      rw [hmod]
      unfold writeRam
      rw [dif_pos hb]
    set s1 : Chip8State :=
      { s with ram := fun j => if j = ⟨base + i0, hb⟩ then s.register i0 else s.ram j } with hs1
    obtain ⟨t, ht, hregs, hir, hpc, hsp, hstk, hdt, hst, hfr, hco⟩ :=
      ih (i0 + 1) s1 (by omega)
    have hreg1 : ∀ i, s1.register i = s.register i := fun i => rfl
    refine ⟨t, ?_, hregs, hir, hpc, hsp, hstk, hdt, hst, ?_, ?_⟩
    · unfold storeRegsFrom
      rw [hw]
      exact ht
    · intro a hcase
      rw [hfr a (by omega), hs1]
      simp only
      rw [if_neg]
      intro hcontra
      have : a.1 = base + i0 := congrArg Fin.val hcontra
      omega
    · intro i hi1 hi2 h4
      by_cases hi : i = i0
      · subst hi
        rw [hfr ⟨base + i, h4⟩ (Or.inl (show base + i < base + (i + 1) by omega)), hs1]
        simp
      · rw [hco i (by omega) (by omega) h4, hreg1]

/-- The `Fx65` loop loads registers `i0..i0+k` from
`base+i0..base+i0+k`, succeeds within ram bounds, and changes nothing
else. -/
theorem loadRegsFrom_spec (base : Nat) : ∀ (k i0 : Nat) (s : Chip8State),
    base + i0 + k ≤ 4096 → i0 + k ≤ 16 →
    ∃ t, loadRegsFrom base s i0 k = some t ∧
      t.ram = s.ram ∧ t.index_register = s.index_register ∧
      t.program_counter = s.program_counter ∧
      t.stack_pointer = s.stack_pointer ∧ t.stack = s.stack ∧
      t.delay_timer = s.delay_timer ∧ t.sound_timer = s.sound_timer ∧
      (∀ j (_ : i0 ≤ j) (_ : j < i0 + k) (h4 : base + j < 4096),
        t.register j = s.ram ⟨base + j, h4⟩) ∧
      (∀ j (_ : j < 16) (_ : j < i0 ∨ i0 + k ≤ j), t.register j = s.register j) := by
  intro k
  induction k with
  | zero =>
    intro i0 s _ _
    exact ⟨s, rfl, rfl, rfl, rfl, rfl, rfl, rfl, rfl,
      fun j h1 h2 => absurd h2 (by omega), fun _ _ _ => rfl⟩
  | succ m ih =>
    intro i0 s hle h16
    have hb : base + i0 < 4096 := by omega
    have hmod : (base + i0) % 65536 = base + i0 := Nat.mod_eq_of_lt (by omega)
    have hr : readRam s ((base + i0) % 65536) = some (s.ram ⟨base + i0, hb⟩) := by
      rw [hmod]
      unfold readRam
      rw [dif_pos hb]
    set s1 : Chip8State := s.write_register i0 (s.ram ⟨base + i0, hb⟩) with hs1
    obtain ⟨t, ht, hram, hir, hpc, hsp, hstk, hdt, hst, hco, hfr⟩ :=
      ih (i0 + 1) s1 (by omega) (by omega)
    have hram1 : s1.ram = s.ram := rfl
    refine ⟨t, ?_, by rw [hram, hram1], hir, hpc, hsp, hstk, hdt, hst, ?_, ?_⟩
    · unfold loadRegsFrom
      rw [hr]
      exact ht
    · intro j hj1 hj2 h4
      by_cases hj : j = i0
      · subst hj
        rw [hfr j (by omega) (by omega), hs1, register_write_self]
      · rw [hco j (by omega) (by omega) h4, hram1]
    · intro j hj16 hjcase
      rw [hfr j hj16 (by omega), hs1, register_write_other]
      omega

/-- C3 counterexample: drawing the one-byte sprite `0x80` at
(x, y) = (64, 0) — the whole sprite past the right edge of the 64-wide
bitmap — is not dropped: it lights framebuffer cell 64, i.e. row 1,
column 0, because the source bounds-checks only the flattened index
`row * 64 + col` against the buffer length. -/
theorem c3_clipping_counterexample :
    (crossTermDraw (fun _ => false) 64 0 [0x80]).1 ⟨64, by omega⟩ = true := by decide

/-- A sprite row whose eight pixels are all unlit (`flip = false`)
changes neither the framebuffer nor the collision flag. -/
theorem drawRowAux_bit7_rest (x row : Nat) :
    ∀ (k j : Nat) (disp : Fin 2048 → Bool) (col : Bool), 1 ≤ j → j + k ≤ 8 →
      (∀ t, (drawRowAux x row 0x80 disp col j k).1 t = disp t) ∧
      (drawRowAux x row 0x80 disp col j k).2 = col := by
  intro k
  induction k with
  | zero => intro j disp col _ _; exact ⟨fun t => rfl, rfl⟩
  | succ m ih =>
    intro j disp col hj hjk
    have hj7 : j ≤ 7 := by omega
    have hflip : decide (0 < 0x80 &&& (1 <<< (7 - j))) = false := by
      interval_cases j <;> decide
    unfold drawRowAux
    simp only [hflip]
    by_cases h : row * 64 + (x + j) % 256 < 2048
    · rw [dif_pos h]
      obtain ⟨h1, h2⟩ := ih (j + 1)
        (fun t => if t = (⟨row * 64 + (x + j) % 256, h⟩ : Fin 2048)
          then xor (disp t) false else disp t)
        (col || (disp ⟨row * 64 + (x + j) % 256, h⟩ && false)) (by omega) (by omega)
      refine ⟨fun t => ?_, ?_⟩
      · rw [h1 t]
        split_ifs <;> simp
      · rw [h2]
        simp
    · rw [dif_neg h]
      exact ⟨fun t => rfl, rfl⟩

/-- C3 amended: a sprite pixel is dropped exactly when its flattened
index `row * 64 + col` reaches past the end of the framebuffer (the
rest of that sprite row is then skipped).  Every row past the bottom
edge (`row ≥ 32`) is therefore dropped in full, and a sprite placed
entirely below the bitmap changes nothing and reports no collision; but
a pixel past the right edge (`col ≥ 64`) whose flattened index is still
below 2048 is NOT dropped: it is XOR-ed into the framebuffer at that
flattened index, wrapping onto a following row. -/
theorem c3_amended_clipping :
    (∀ (x row byte : Nat) (disp : Fin 2048 → Bool) (col : Bool), 32 ≤ row →
      drawRowAux x row byte disp col 0 8 = (disp, col)) ∧
    (∀ (x y : Nat) (disp : Fin 2048 → Bool) (data : List Nat), 32 ≤ y →
      crossTermDraw disp x y data = (disp, false)) ∧
    (∀ (x y : Nat) (_ : 64 ≤ x) (_ : x ≤ 247) (_ : y ≤ 31) (_ : y * 64 + x + 7 < 2048),
      (crossTermDraw (fun _ => false) x y [0x80]).1 ⟨y * 64 + x, by omega⟩ = true) := by
  have hrow : ∀ (x row byte : Nat) (disp : Fin 2048 → Bool) (col : Bool), 32 ≤ row →
      drawRowAux x row byte disp col 0 8 = (disp, col) := by
    intro x row byte disp col hr
    unfold drawRowAux
    rw [dif_neg (by omega)]
  refine ⟨hrow, ?_, ?_⟩
  · intro x y disp data hy
    have hout : ∀ (bytes : List Nat) (i : Nat) (d : Fin 2048 → Bool) (col : Bool),
        drawData x y d col i bytes = (d, col) := by
      intro bytes
      induction bytes with
      | nil => intro i d col; rfl
      | cons b rest ih =>
        intro i d col
        unfold drawData
        rw [hrow x (y + i) b d col (by omega)]
        exact ih (i + 1) d col
    exact hout data 0 disp false
  · intro x y h64 h247 h31 hidx
    have hsingle : ∀ (d : Fin 2048 → Bool) (c : Bool) (i b : Nat),
        drawData x y d c i [b] = drawRowAux x (y + i) b d c 0 8 := by
      intro d c i b
      rfl
    show (drawData x y (fun _ => false) false 0 [0x80]).1 ⟨y * 64 + x, by omega⟩ = true
    rw [hsingle]
    have hy0 : y + 0 = y := rfl
    rw [hy0]
    unfold drawRowAux
    have hc : (x + 0) % 256 = x := by omega
    simp only [hc]
    rw [dif_pos (show y * 64 + x < 2048 by omega)]
    have hflip : decide (0 < 0x80 &&& (1 <<< (7 - 0))) = true := by decide
    simp only [hflip, Nat.zero_add]
    rw [(drawRowAux_bit7_rest x y 7 1 _ _ (by omega) (by omega)).1]
    simp

/-- C3 amended at concrete inputs: a sprite row at row 32 is dropped, a
sprite placed at y = 32 changes nothing, and the pixel of `0x80` drawn
at (64, 0) lands at flattened index 64. -/
theorem c3_amended_clipping_witness :
    (drawRowAux 0 32 0xFF (fun _ => false) false 0 8 = (fun _ => false, false)) ∧
    (crossTermDraw (fun _ => false) 3 32 [0xFF, 0xFF] = (fun _ => false, false)) ∧
    (crossTermDraw (fun _ => false) 64 0 [0x80]).1 ⟨0 * 64 + 64 + 0, by omega⟩ = true :=
  ⟨c3_amended_clipping.1 0 32 0xFF (fun _ => false) false (by omega),
   c3_amended_clipping.2.1 3 32 (fun _ => false) [0xFF, 0xFF] (by omega),
   c3_amended_clipping.2.2 64 0 (by omega) (by omega) (by omega) (by omega)⟩

/-- C4: if `Fx0A` executes in a cycle where the keyboard reports no
newly pressed key, the program counter after the cycle equals its value
before it (the +2 of the fetch is undone by the −2 rewind) and the ram
and registers are unchanged, so the same instruction is fetched again
next cycle; when a newly pressed key `k` is reported, Vx receives `k`
and the counter advances past the instruction. -/
theorem c4_wait_key (s : Chip8State) (inp : CycleInputs) (x : Nat) (hx : x < 16)
    (hpc : s.program_counter + 1 < 4096)
    (hA : readRam s s.program_counter = some (0xF0 + x))
    (hB : readRam s (s.program_counter + 1) = some 0x0A) :
    (inp.last_key_pressed = none →
      ∃ t, step s inp = .next t [] ∧
        t.program_counter = s.program_counter ∧
        t.ram = s.ram ∧ t.data_registers = s.data_registers ∧
        t.index_register = s.index_register ∧ t.stack = s.stack ∧
        t.stack_pointer = s.stack_pointer ∧
        t.delay_timer = s.delay_timer ∧ t.sound_timer = s.sound_timer) ∧
    (∀ k, inp.last_key_pressed = some k →
      ∃ t, step s inp = .next t [] ∧
        t.register x = k ∧
        t.program_counter = s.program_counter + 2) := by
  constructor
  · intro hnone
    rw [step_eq_exec s inp _ _ (.waitKey x) hA hB (decode_waitKey x hx)]
    simp only [exec, hnone]
    refine ⟨_, rfl, ?_, rfl, rfl, rfl, rfl, rfl, rfl, rfl⟩
    show ((s.program_counter + 2) % 65536 + 65536 - 2) % 65536 = s.program_counter
    omega
  · intro k hsome
    rw [step_eq_exec s inp _ _ (.waitKey x) hA hB (decode_waitKey x hx)]
    simp only [exec, hsome]
    refine ⟨_, rfl, register_write_self _ _ _, ?_⟩
    show (s.program_counter + 2) % 65536 = s.program_counter + 2
    omega

/-- C4 at concrete inputs: `F30A` at 0x200 with no key leaves the
counter at 0x200; with key 7 newly pressed, V3 = 7 and the counter
moves to 0x202. -/
theorem c4_wait_key_witness :
    (∃ t, step (stateWith [(0x200, 0xF3), (0x201, 0x0A)]) noInput = .next t [] ∧
      t.program_counter = 0x200 ∧
      t.ram = (stateWith [(0x200, 0xF3), (0x201, 0x0A)]).ram ∧
      t.data_registers = (stateWith [(0x200, 0xF3), (0x201, 0x0A)]).data_registers ∧
      t.index_register = 0 ∧ t.stack = (stateWith [(0x200, 0xF3), (0x201, 0x0A)]).stack ∧
      t.stack_pointer = 0 ∧ t.delay_timer = 0 ∧ t.sound_timer = 0) ∧
    (∃ t, step (stateWith [(0x200, 0xF3), (0x201, 0x0A)])
        ⟨some 7, fun _ => false, 0, false⟩ = .next t [] ∧
      t.register 3 = 7 ∧ t.program_counter = 0x200 + 2) := by
  constructor
  · have h := (c4_wait_key (stateWith [(0x200, 0xF3), (0x201, 0x0A)]) noInput 3 (by decide)
      (by decide) (by decide) (by decide)).1 rfl
    simpa using h
  · have h := (c4_wait_key (stateWith [(0x200, 0xF3), (0x201, 0x0A)])
      ⟨some 7, fun _ => false, 0, false⟩ 3 (by decide)
      (by decide) (by decide) (by decide)).2 7 rfl
    simpa using h

/-- C8: when the fetched instruction word's nibble pattern matches no
dispatch arm (`decode` returns `none`), the engine clears the display,
flushes it, and aborts the process; no recoverable error value is
produced for a decode failure (the cycle's result is `panicked`, not
`next`). -/
theorem c8_unknown_instruction_fatal (s : Chip8State) (inp : CycleInputs) (byte_a byte_b : Nat)
    (ha : readRam s s.program_counter = some byte_a)
    (hb : readRam s (s.program_counter + 1) = some byte_b)
    (hu : decode byte_a byte_b = none) :
    step s inp = .panicked [.clearDisplay, .flushDisplay] := by
  simp only [step, ha, hb, hu]

/-- C8 at a concrete input: the word 0xFFFF decodes to no operation and
the cycle clears, flushes, and aborts. -/
theorem c8_unknown_instruction_fatal_witness :
    readRam (stateWith [(0x200, 0xFF), (0x201, 0xFF)]) 0x200 = some 0xFF ∧
    decode 0xFF 0xFF = none ∧
    step (stateWith [(0x200, 0xFF), (0x201, 0xFF)]) noInput =
      .panicked [.clearDisplay, .flushDisplay] :=
  ⟨by decide, by decide,
    c8_unknown_instruction_fatal _ noInput 0xFF 0xFF (by decide) (by decide) (by decide)⟩

theorem decode_dumpRegs (x : Nat) (hx : x < 16) :
    decode (0xF0 + x) 0x55 = some (.dumpRegs x) := by
  unfold decode
  have e0 : (0xF0 + x) / 16 % 16 = 15 := by omega
  have e1 : (0xF0 + x) % 16 = x := by omega
  rw [e0, e1]

theorem decode_fillRegs (x : Nat) (hx : x < 16) :
    decode (0xF0 + x) 0x65 = some (.fillRegs x) := by
  unfold decode
  have e0 : (0xF0 + x) / 16 % 16 = 15 := by omega
  have e1 : (0xF0 + x) % 16 = x := by omega
  rw [e0, e1]

theorem decode_call (hi lo : Nat) (hhi : hi < 16) :
    decode (0x20 + hi) lo = some (.call (hi * 256 + lo)) := by
  unfold decode
  have e0 : (0x20 + hi) / 16 % 16 = 2 := by omega
  have e1 : (0x20 + hi) % 16 = hi := by omega
  rw [e0, e1]

theorem decode_ret : decode 0x00 0xEE = some .ret := rfl

/-- `2nnn`: push the already-advanced counter and jump; everything else
is untouched. -/
theorem step_call_spec (s : Chip8State) (inp : CycleInputs) (hi lo : Nat)
    (hd : decodesCallTo s hi lo) :
    ∃ t, step s inp = .next t [] ∧
      t.program_counter = hi * 256 + lo ∧
      t.stack_pointer = (s.stack_pointer + 1) % 256 ∧
      (∀ j : Fin 256, j.1 = (s.stack_pointer + 1) % 256 →
        t.stack j = s.program_counter + 2) ∧
      (∀ j : Fin 256, j.1 ≠ (s.stack_pointer + 1) % 256 → t.stack j = s.stack j) ∧
      t.ram = s.ram ∧ t.data_registers = s.data_registers ∧
      t.index_register = s.index_register ∧
      t.delay_timer = s.delay_timer ∧ t.sound_timer = s.sound_timer := by
  obtain ⟨hpc, hhi, hlo, hA, hB⟩ := hd
  rw [step_eq_exec s inp _ _ (.call (hi * 256 + lo)) hA hB (decode_call hi lo hhi)]
  simp only [exec]
  refine ⟨_, rfl, rfl, rfl, ?_, ?_, rfl, rfl, rfl, rfl, rfl⟩
  · intro j hj
    simp only
    rw [if_pos (Fin.ext (by simpa using hj))]
    show (s.program_counter + 2) % 65536 = s.program_counter + 2
    omega
  · intro j hj
    simp only
    rw [if_neg]
    intro hc
    exact hj (by simpa using congrArg Fin.val hc)

/-- `00EE`: pop the counter; the stack contents are untouched. -/
theorem step_ret_spec (s : Chip8State) (inp : CycleInputs)
    (hd : decodesRet s) :
    ∃ t, step s inp = .next t [] ∧
      t.program_counter = s.stack ⟨s.stack_pointer % 256, Nat.mod_lt _ (by decide)⟩ ∧
      t.stack_pointer = (s.stack_pointer + 255) % 256 ∧
      t.stack = s.stack ∧
      t.ram = s.ram ∧ t.data_registers = s.data_registers ∧
      t.index_register = s.index_register ∧
      t.delay_timer = s.delay_timer ∧ t.sound_timer = s.sound_timer := by
  obtain ⟨hpc, hA, hB⟩ := hd
  rw [step_eq_exec s inp _ _ .ret hA hB decode_ret]
  simp only [exec]
  exact ⟨_, rfl, rfl, rfl, rfl, rfl, rfl, rfl, rfl, rfl⟩

/-- The stack discipline of call/return sequences: after the calls
pending in `ps` (most recent first), the stack pointer sits `ps.length`
above its start, within capacity, and slot `sp + length − i` holds the
return address (call site + 2) of the i-th pending call. -/
theorem callRetSeq_stack_spec (s : Chip8State) (hsp : s.stack_pointer ≤ 255) :
    ∀ (ps : List Nat) (t : Chip8State), CallRetSeq s ps t →
      t.stack_pointer = s.stack_pointer + ps.length ∧
      s.stack_pointer + ps.length ≤ 255 ∧
      (∀ i (hi : i < ps.length),
        ps.get ⟨i, hi⟩ + 1 < 4096 ∧
        t.stack ⟨(s.stack_pointer + ps.length - i) % 256, Nat.mod_lt _ (by omega)⟩ =
          ps.get ⟨i, hi⟩ + 2) := by
  intro ps t hseq
  induction hseq with
  | nil => exact ⟨by simp, by simpa using hsp, fun i hi => absurd hi (by simp)⟩
  | call ps t t' inp hi lo hseq hcap hdec hstep ih =>
    obtain ⟨ihsp, ihle, ihco⟩ := ih
    obtain ⟨t2, hstep2, h2pc, h2sp, h2set, h2fr, _, _, _, _, _⟩ :=
      step_call_spec t inp hi lo hdec
    rw [hstep] at hstep2
    obtain ⟨h2, _⟩ := Outcome.next.inj hstep2.symm
    subst h2
    have hnow : (t.stack_pointer + 1) % 256 = s.stack_pointer + ps.length + 1 := by
      rw [ihsp]
      omega
    refine ⟨?_, ?_, ?_⟩
    · rw [h2sp, hnow]
      simp only [List.length_cons]
      omega
    · simp only [List.length_cons]
      omega
    · intro i hilen
      cases i with
      | zero =>
        refine ⟨by simpa using hdec.1, ?_⟩
        have hj : ((⟨(s.stack_pointer + (t.program_counter :: ps).length - 0) % 256,
            Nat.mod_lt _ (by omega)⟩ : Fin 256)).1 = (t.stack_pointer + 1) % 256 := by
          show (s.stack_pointer + (t.program_counter :: ps).length - 0) % 256 = _
          rw [hnow]
          simp only [List.length_cons]
          omega
        rw [h2set _ hj]
        rfl
      | succ m =>
        have hm : m < ps.length := by simpa using hilen
        obtain ⟨hm4096, hmco⟩ := ihco m hm
        refine ⟨by simpa using hm4096, ?_⟩
        have hne : ((⟨(s.stack_pointer + (t.program_counter :: ps).length - (m + 1)) % 256,
            Nat.mod_lt _ (by omega)⟩ : Fin 256)).1 ≠ (t.stack_pointer + 1) % 256 := by
          show (s.stack_pointer + (t.program_counter :: ps).length - (m + 1)) % 256 ≠ _
          rw [hnow]
          simp only [List.length_cons]
          omega
        rw [h2fr _ hne]
        have he : (⟨(s.stack_pointer + (t.program_counter :: ps).length - (m + 1)) % 256,
            Nat.mod_lt _ (by omega)⟩ : Fin 256) =
            ⟨(s.stack_pointer + ps.length - m) % 256, Nat.mod_lt _ (by omega)⟩ := by
          apply Fin.ext
          show (s.stack_pointer + (t.program_counter :: ps).length - (m + 1)) % 256 = _
          simp only [List.length_cons]
          omega
        rw [he]
        exact hmco
  | ret p ps t t' inp hseq hdec hstep ih =>
    obtain ⟨ihsp, ihle, ihco⟩ := ih
    obtain ⟨t2, hstep2, h2pc, h2sp, h2stk, _, _, _, _, _⟩ :=
      step_ret_spec t inp hdec
    rw [hstep] at hstep2
    obtain ⟨h2, _⟩ := Outcome.next.inj hstep2.symm
    subst h2
    refine ⟨?_, by simp only [List.length_cons] at ihle; omega, ?_⟩
    · rw [h2sp, ihsp]
      simp only [List.length_cons] at ihle ⊢
      omega
    · intro i hilen
      obtain ⟨hm4096, hmco⟩ := ihco (i + 1) (by simp only [List.length_cons]; omega)
      refine ⟨by simpa using hm4096, ?_⟩
      rw [h2stk]
      have he : (⟨(s.stack_pointer + ps.length - i) % 256,
          Nat.mod_lt _ (by omega)⟩ : Fin 256) =
          ⟨(s.stack_pointer + (p :: ps).length - (i + 1)) % 256, Nat.mod_lt _ (by omega)⟩ := by
        apply Fin.ext
        show (s.stack_pointer + ps.length - i) % 256 = _
        simp only [List.length_cons]
        omega
      rw [he]
      exact hmco

/-- C5: in any sequence of nested `2nnn` calls and `00EE` returns whose
depth stays within stack capacity (`CallRetSeq`, whose pending-call list
matches returns to calls in last-in-first-out order), a `00EE` executed
when the most recent pending call was made at program counter `p` sets
the program counter to `p + 2` — the instruction immediately following
that call. -/
theorem c5_call_ret_lifo (s : Chip8State) (p : Nat) (ps : List Nat)
    (t t' : Chip8State) (inp : CycleInputs)
    (hsp : s.stack_pointer ≤ 255)
    (hseq : CallRetSeq s (p :: ps) t)
    (hdec : decodesRet t) (hstep : step t inp = .next t' []) :
    t'.program_counter = p + 2 := by
  obtain ⟨hterm, hle, hco⟩ := callRetSeq_stack_spec s hsp (p :: ps) t hseq
  obtain ⟨hp4096, hpco⟩ := hco 0 (by simp)
  obtain ⟨t2, hstep2, h2pc, _, _, _, _, _, _, _⟩ := step_ret_spec t inp hdec
  rw [hstep] at hstep2
  obtain ⟨h2, _⟩ := Outcome.next.inj hstep2.symm
  subst h2
  rw [h2pc]
  have he : (⟨t.stack_pointer % 256, Nat.mod_lt _ (by decide)⟩ : Fin 256) =
      ⟨(s.stack_pointer + (p :: ps).length - 0) % 256, Nat.mod_lt _ (by omega)⟩ := by
    apply Fin.ext
    simp only
    rw [hterm]
    simp
  rw [he, hpco]
  simp

/-- C5 at a concrete input: `2300` at 0x200 calls 0x300, where `00EE`
returns; the counter lands on 0x202, the instruction after the call. -/
theorem c5_call_ret_lifo_witness :
    ∃ t t' : Chip8State,
      CallRetSeq (stateWith [(0x200, 0x23), (0x201, 0x00), (0x300, 0x00), (0x301, 0xEE)])
        [0x200] t ∧
      decodesRet t ∧
      step t noInput = .next t' [] ∧
      t'.program_counter = 0x200 + 2 := by
  obtain ⟨t, hstep1, hpc, hsp, hset, hfr, hram, hregs, hir, hdt, hst⟩ :=
    step_call_spec (stateWith [(0x200, 0x23), (0x201, 0x00), (0x300, 0x00), (0x301, 0xEE)])
      noInput 3 0 ⟨by decide, by decide, by decide, by decide, by decide⟩
  have hA : readRam t t.program_counter = some 0x00 := by
    rw [hpc]
    unfold readRam
    rw [dif_pos (by norm_num)]
    rw [hram]
    decide
  have hB : readRam t (t.program_counter + 1) = some 0xEE := by
    rw [hpc]
    unfold readRam
    rw [dif_pos (by norm_num)]
    rw [hram]
    decide
  have hdec : decodesRet t := ⟨by rw [hpc]; norm_num, hA, hB⟩
  obtain ⟨t', hstep2, h2pc, _, _, _, _, _, _, _⟩ := step_ret_spec t noInput hdec
  have hseq : CallRetSeq (stateWith [(0x200, 0x23), (0x201, 0x00), (0x300, 0x00), (0x301, 0xEE)])
      [0x200] t :=
    CallRetSeq.call _ [] _ t noInput 3 0
      (CallRetSeq.nil _) (by decide)
      ⟨by decide, by decide, by decide, by decide, by decide⟩ hstep1
  exact ⟨t, t', hseq, hdec, hstep2,
    c5_call_ret_lifo _ 0x200 [] t t' noInput (by decide) hseq hdec hstep2⟩

/-- C6: for every x in 0..16 and an index register value whose x+1
store addresses stay inside the 4096-byte memory (and do not overwrite
the following `Fx65` instruction word), executing `Fx55` and then
immediately `Fx65` with the same index register value leaves registers
V0 through Vx equal to their original values. -/
theorem c6_store_load_roundtrip (s : Chip8State) (inp inp2 : CycleInputs) (x : Nat)
    (hx : x < 16)
    (hpc : s.program_counter + 3 < 4096)
    (hI : s.index_register + x < 4096)
    (hdisj : s.index_register + x < s.program_counter + 2 ∨
      s.program_counter + 3 < s.index_register)
    (hA : readRam s s.program_counter = some (0xF0 + x))
    (hB : readRam s (s.program_counter + 1) = some 0x55)
    (hC : readRam s (s.program_counter + 2) = some (0xF0 + x))
    (hD : readRam s (s.program_counter + 3) = some 0x65) :
    ∃ t u, step s inp = .next t [] ∧ step t inp2 = .next u [] ∧
      ∀ i, i ≤ x → u.register i = s.register i := by
  have hstep1 : step s inp =
      exec (.dumpRegs x) { s with program_counter := (s.program_counter + 2) % 65536 } inp :=
    step_eq_exec s inp _ _ (.dumpRegs x) hA hB (decode_dumpRegs x hx)
  set s' : Chip8State := { s with program_counter := (s.program_counter + 2) % 65536 }
    with hs'
  obtain ⟨t, ht, hregs, hir, hpc', hsp, hstk, hdt, hst, hfr, hco⟩ :=
    storeRegsFrom_spec s'.index_register (x + 1) 0 s' (by simp [hs']; omega)
  have htpc : t.program_counter = s.program_counter + 2 := by
    rw [hpc', hs']
    simp only
    omega
  have htir : t.index_register = s.index_register := hir
  -- the second fetch reads the untouched Fx65 word
  have htA : readRam t t.program_counter = some (0xF0 + x) := by
    unfold readRam at hC ⊢
    rw [dif_pos (by omega : s.program_counter + 2 < 4096)] at hC
    rw [htpc, dif_pos (by omega : s.program_counter + 2 < 4096)]
    rw [hfr ⟨s.program_counter + 2, by omega⟩ (by simp [hs']; omega)]
    exact hC
  have htB : readRam t (t.program_counter + 1) = some 0x65 := by
    unfold readRam at hD ⊢
    rw [dif_pos (by omega : s.program_counter + 3 < 4096)] at hD
    rw [htpc, dif_pos (by omega : s.program_counter + 2 + 1 < 4096)]
    show some (t.ram ⟨s.program_counter + 3, by omega⟩) = some 0x65
    rw [hfr ⟨s.program_counter + 3, by omega⟩ (by simp [hs']; omega)]
    exact hD
  have hstep2 : step t inp2 =
      exec (.fillRegs x) { t with program_counter := (t.program_counter + 2) % 65536 } inp2 :=
    step_eq_exec t inp2 _ _ (.fillRegs x) htA htB (decode_fillRegs x hx)
  set t' : Chip8State := { t with program_counter := (t.program_counter + 2) % 65536 }
    with ht'
  obtain ⟨u, hu, huram, huir, hupc, husp, hustk, hudt, hust, huco, hufr⟩ :=
    loadRegsFrom_spec t'.index_register (x + 1) 0 t' (by simp [ht', htir]; omega) (by omega)
  refine ⟨t, u, ?_, ?_, ?_⟩
  · rw [hstep1]
    simp only [exec]
    rw [ht]
  · rw [hstep2]
    simp only [exec]
    rw [hu]
  · intro i hi
    have h4 : t'.index_register + i < 4096 := by
      show t.index_register + i < 4096
      rw [htir]
      omega
    rw [huco i (by omega) (by omega) h4]
    have h5 : s'.index_register + i < 4096 := by
      show s.index_register + i < 4096
      omega
    have heq : t'.ram ⟨t'.index_register + i, h4⟩ = s'.register i := by
      have he : (⟨t'.index_register + i, h4⟩ : Fin 4096) = ⟨s'.index_register + i, h5⟩ := by
        apply Fin.ext
        show t.index_register + i = s.index_register + i
        rw [htir]
      rw [he]
      exact hco i (by omega) (by omega) h5
    rw [heq]
    rfl

/-- C6 at a concrete input: `F255` at 0x200 then `F265` at 0x202 with
index 0x300 and V0 = 7, V1 = 9, V2 = 11 restores V0..V2. -/
theorem c6_store_load_roundtrip_witness :
    ∃ t u,
      step ((({ stateWith [(0x200, 0xF2), (0x201, 0x55), (0x202, 0xF2), (0x203, 0x65)] with
          index_register := 0x300 } : Chip8State).write_register 0 7).write_register 1 9)
        noInput = .next t [] ∧
      step t noInput = .next u [] ∧
      ∀ i, i ≤ 2 → u.register i =
        ((({ stateWith [(0x200, 0xF2), (0x201, 0x55), (0x202, 0xF2), (0x203, 0x65)] with
          index_register := 0x300 } : Chip8State).write_register 0 7).write_register 1 9).register i :=
  c6_store_load_roundtrip _ noInput noInput 2 (by decide) (by decide) (by decide)
    (Or.inr (by decide)) (by decide) (by decide) (by decide) (by decide)

/-- C7: with Vx = a and Vy = b (8-bit values, x not the flag register),
`8xy4` stores `(a+b) mod 256` into Vx and sets VF to 1 iff `a+b > 255`,
and `8xy5` stores `(a-b) mod 256` (two's-complement wrap, equal to the
integer `(a - b) mod 256`) into Vx and sets VF to 1 iff `a ≥ b`; both
cycles complete normally (no trap) and advance the program counter. -/
theorem c7_add_sub_arith (s : Chip8State) (inp : CycleInputs) (x y a b : Nat)
    (hx : x < 16) (hy : y < 16) (hxf : x ≠ 15)
    (ha8 : a < 256) (hb8 : b < 256)
    (hvx : s.register x = a) (hvy : s.register y = b) :
    (readRam s s.program_counter = some (0x80 + x) →
     readRam s (s.program_counter + 1) = some (16 * y + 0x4) →
     ∃ t, step s inp = .next t [] ∧
       t.register x = (a + b) % 256 ∧
       t.register 15 = (if 255 < a + b then 1 else 0) ∧
       t.program_counter = (s.program_counter + 2) % 65536) ∧
    (readRam s s.program_counter = some (0x80 + x) →
     readRam s (s.program_counter + 1) = some (16 * y + 0x5) →
     ∃ t, step s inp = .next t [] ∧
       t.register x = (a + 256 - b) % 256 ∧
       (t.register x : ℤ) = ((a : ℤ) - (b : ℤ)) % 256 ∧
       t.register 15 = (if b ≤ a then 1 else 0) ∧
       t.program_counter = (s.program_counter + 2) % 65536) := by
  constructor
  · intro hA hB
    rw [step_eq_exec s inp _ _ (.addReg x y) hA hB (decode_addReg x y hx hy)]
    simp only [exec]
    refine ⟨_, rfl, ?_, ?_, rfl⟩
    · rw [register_set_flag_other _ _ x (by omega), register_write_self]
      simp only [overflowingAdd8, register_update_pc]
      rw [hvx, hvy]
    · rw [register_set_flag]
      simp only [overflowingAdd8, register_update_pc, hvx, hvy, decide_eq_true_eq]
      split_ifs <;> omega
  · intro hA hB
    rw [step_eq_exec s inp _ _ (.subReg x y) hA hB (decode_subReg x y hx hy)]
    simp only [exec]
    refine ⟨_, rfl, ?_, ?_, ?_, rfl⟩
    · rw [register_set_flag_other _ _ x (by omega), register_write_self]
      simp only [overflowingSub8, register_update_pc, hvx, hvy]
    · rw [register_set_flag_other _ _ x (by omega), register_write_self]
      simp only [overflowingSub8, register_update_pc, hvx, hvy]
      omega
    · rw [register_set_flag]
      simp only [overflowingSub8, Bool.not_eq_true', decide_eq_false_iff_not, not_lt,
        register_update_pc, hvx, hvy]

/-- C7 at a concrete input: V0 = 200, V1 = 100; `8014` gives V0 = 44,
VF = 1; `8015` gives V0 = 100, VF = 1. -/
theorem c7_add_sub_arith_witness :
    (∃ t, step (((stateWith [(0x200, 0x80), (0x201, 0x14)]).write_register 0 200).write_register 1 100)
        noInput = .next t [] ∧
      t.register 0 = (200 + 100) % 256 ∧
      t.register 15 = (if 255 < 200 + 100 then 1 else 0) ∧
      t.program_counter = (0x200 + 2) % 65536) ∧
    (∃ t, step (((stateWith [(0x200, 0x80), (0x201, 0x15)]).write_register 0 200).write_register 1 100)
        noInput = .next t [] ∧
      t.register 0 = (200 + 256 - 100) % 256 ∧
      (t.register 0 : ℤ) = ((200 : ℤ) - (100 : ℤ)) % 256 ∧
      t.register 15 = (if 100 ≤ 200 then 1 else 0) ∧
      t.program_counter = (0x200 + 2) % 65536) := by
  constructor
  · exact
      (c7_add_sub_arith _ noInput 0 1 200 100 (by decide) (by decide) (by decide)
        (by decide) (by decide) (by decide) (by decide)).1 (by decide) (by decide)
  · exact
      (c7_add_sub_arith _ noInput 0 1 200 100 (by decide) (by decide) (by decide)
        (by decide) (by decide) (by decide) (by decide)).2 (by decide) (by decide)

/-- C2 at a concrete input: loading the two-byte program `[0x12, 0x34]`
into a fresh state puts the font at 0x000–0x04F and the program bytes at
0x200–0x201. -/
theorem c2_load_program_layout_witness :
    0x200 + [0x12, 0x34].length ≤ 4096 ∧
    ∃ t, Chip8State.init.load_program [0x12, 0x34] = some t ∧
      (∀ i (_ : i < 80), t.ram ⟨i, by omega⟩ = FONT.getD i 0) ∧
      (∀ d k (_ : d < 16) (_ : k < 5), t.ram ⟨5 * d + k, by omega⟩ = FONT.getD (5 * d + k) 0) ∧
      (∀ i (_ : i < 2), t.ram ⟨0x200 + i, by omega⟩ = [0x12, 0x34].getD i 0) :=
  ⟨by decide, c2_load_program_layout Chip8State.init [0x12, 0x34] (by decide)⟩

/-- C9: the timer-tick block decrements the delay and sound timers,
flooring at 0, calls `Beeper::play` exactly when the sound timer is
nonzero at the tick (and `Beeper::pause` otherwise), and flushes the
display on every tick.  (The 60 Hz real-time pacing that decides *when*
this block runs is outside the embedding; this is the block's effect per
tick.) -/
theorem c9_timer_tick (s : Chip8State) :
    ((timerTick s).1.delay_timer = if 0 < s.delay_timer then s.delay_timer - 1 else 0) ∧
    ((timerTick s).1.sound_timer = if 0 < s.sound_timer then s.sound_timer - 1 else 0) ∧
    ((timerTick s).2 = if 0 < s.sound_timer
      then [Effect.beeperPlay, Effect.flushDisplay]
      else [Effect.beeperPause, Effect.flushDisplay]) ∧
    Effect.flushDisplay ∈ (timerTick s).2 := by
  unfold timerTick
  by_cases hd : 0 < s.delay_timer <;> by_cases hs : 0 < s.sound_timer <;>
    simp [hd, hs] <;> omega

end Crab8
